import Mathlib

/-!
Verification of the ST7735/ST7789 TFT display driver (`src/lib.rs`).

The driver talks to the display controller through an SPI bus, a
chip-select pin (`csx`), a data/command pin (`dc`) and a reset pin
(`rst`), with a blocking microsecond delay provider.  Each driver
operation is embedded as a function from a driver state to a new state
together with an optional error, recording every externally observable
action (pin transition, SPI write, blocking delay) in a trace.
Fallibility of pin and SPI operations is modelled by an oracle `Env`
assigning to the index of each fallible operation either success
(`none`) or a failure payload (`some p`).
-/

namespace ST7735

/-- Observable events on the wires: chip-select pin writes, data/command
pin writes and reset pin writes (`true` is high, `false` is low), one
SPI `write` call with its byte payload, and a blocking delay in
microseconds. -/
inductive Ev : Type
  | csx (high : Bool)
  | dc (high : Bool)
  | rst (high : Bool)
  | spi (bytes : List Nat)
  | delay (us : Nat)
deriving DecidableEq

/-- Driver state: `n` counts the fallible pin/SPI operations performed so
far (it indexes the failure oracle), `tr` is the trace of emitted
events, and `size_x`, `size_y` are the screen dimensions stored by `new`
(the `size_x`/`size_y` fields of the Rust `ST7789` struct). -/
structure St : Type where
  n : Nat
  tr : List Ev
  size_x : Nat
  size_y : Nat
deriving DecidableEq

/-- Errors, mirroring `enum Error<SPIE, PinE> { Spi(SPIE), Pin(PinE) }`;
the payload of either variant is embedded as a `Nat`. -/
inductive Error : Type
  | spi (p : Nat)
  | pin (p : Nat)
deriving DecidableEq

/-- Failure oracle: for each fallible operation index, `none` means the
operation succeeds and `some p` means it fails with payload `p`. -/
abbrev Env : Type := Nat → Option Nat

/-- The oracle under which every pin and SPI operation succeeds. -/
def allOk : Env := fun _ => none

/-- A fallible pin write (`set_high`/`set_low` on a pin, `map_err(Error::Pin)`):
on success it records the event and advances the operation counter, on
failure it raises `Error.pin` with the oracle's payload. -/
def pinOp (env : Env) (e : Ev) (s : St) : St × Option Error :=
  match env s.n with
  | none => (⟨s.n + 1, s.tr ++ [e], s.size_x, s.size_y⟩, none)
  | some p => (⟨s.n + 1, s.tr, s.size_x, s.size_y⟩, some (Error.pin p))

/-- A fallible SPI write of a byte sequence (`self.spi.write(..)`,
`map_err(Error::Spi)`). -/
def spiOp (env : Env) (bytes : List Nat) (s : St) : St × Option Error :=
  match env s.n with
  | none => (⟨s.n + 1, s.tr ++ [Ev.spi bytes], s.size_x, s.size_y⟩, none)
  | some p => (⟨s.n + 1, s.tr, s.size_x, s.size_y⟩, some (Error.spi p))

/-- The infallible blocking delay (`delay_source.delay_us(us)`). -/
def delayOp (us : Nat) (s : St) : St × Option Error :=
  (⟨s.n, s.tr ++ [Ev.delay us], s.size_x, s.size_y⟩, none)

/-- Sequencing with early return: the embedding of Rust's `?` operator. -/
def step (x : St × Option Error) (f : St → St × Option Error) : St × Option Error :=
  match x with
  | (s, none) => f s
  | (s, some e) => (s, some e)

/-- Modelled from the spec: the instruction opcode table lives in
`src/instruction.rs`, which is not among the provided sources; section 3
of the spec says only that `Instruction` is an enumerated one-byte
opcode identifying a controller operation.  The constructors cover
exactly the instructions `lib.rs` uses. -/
inductive Instruction : Type
  | SWRESET
  | SLPOUT
  | INVOFF
  | MADCTL
  | COLMOD
  | INVON
  | NORON
  | DISPON
  | CASET
  | RASET
  | RAMWR
deriving DecidableEq

/-- Modelled from the spec: the one-byte opcode of each instruction
(`Instruction::to_u8`, always defined).  The concrete values are those
of the controller datasheet; no claim depends on them, only on which
instruction a command carries. -/
def Instruction.toU8 : Instruction → Nat
  | .SWRESET => 0x01
  | .SLPOUT => 0x11
  | .NORON => 0x13
  | .INVOFF => 0x20
  | .INVON => 0x21
  | .DISPON => 0x29
  | .CASET => 0x2A
  | .RASET => 0x2B
  | .RAMWR => 0x2C
  | .MADCTL => 0x36
  | .COLMOD => 0x3A

/-- Display orientation (`enum Orientation` in `lib.rs`). -/
inductive Orientation : Type
  | Portrait
  | Landscape
  | PortraitSwapped
  | LandscapeSwapped
deriving DecidableEq

/-- The configuration byte of each orientation: the enum discriminants
written in `lib.rs`, combined with `to_u8().unwrap_or(0)` from
`set_orientation` (the conversion always succeeds on this fieldless
enum, so the `unwrap_or` default is never taken). -/
def Orientation.toU8 : Orientation → Nat
  | .Portrait => 0x00
  | .Landscape => 0x60
  | .PortraitSwapped => 0xC0
  | .LandscapeSwapped => 0xA0

/-- High byte of `u16::to_be_bytes`. -/
def beHi (v : Nat) : Nat := v / 256 % 256

/-- Low byte of `u16::to_be_bytes`. -/
def beLo (v : Nat) : Nat := v % 256

/-- Big-endian byte pair of a 16-bit value (`u16::to_be_bytes`): most
significant byte first. -/
def beBytes (v : Nat) : List Nat := [beHi v, beLo v]

/-- Embedding of `ST7789::new`: stores the screen dimensions; the SPI,
chip-select, data/command and reset resources become the trace itself,
which starts empty because `new` performs no I/O. -/
def new (size_x size_y : Nat) : St := ⟨0, [], size_x, size_y⟩

/-- Embedding of `ST7789::write_data`: select the device, transfer the
bytes, deselect the device. -/
def write_data (env : Env) (data : List Nat) (s : St) : St × Option Error :=
  step (pinOp env (Ev.csx false) s) fun s =>
  step (spiOp env data s) fun s =>
  pinOp env (Ev.csx true) s

/-- Embedding of `ST7789::write_word`: one big-endian 16-bit data word. -/
def write_word (env : Env) (value : Nat) (s : St) : St × Option Error :=
  write_data env (beBytes value) s

/-- Embedding of `ST7789::start_data`: switch the data/command pin to
data context. -/
def start_data (env : Env) (s : St) : St × Option Error :=
  step (pinOp env (Ev.dc true) s) fun s =>
  (s, none)

/-- Embedding of `ST7789::write_command`: select the device, set command
context, send the opcode byte, optionally switch to data context and
send the parameter bytes, then deselect the device. -/
def write_command (env : Env) (command : Instruction) (params : Option (List Nat))
    (s : St) : St × Option Error :=
  step (pinOp env (Ev.csx false) s) fun s =>
  step (pinOp env (Ev.dc false) s) fun s =>
  step (spiOp env [command.toU8] s) fun s =>
  step (match params with
    | some ps =>
        step (start_data env s) fun s =>
        write_data env ps s
    | none => (s, none)) fun s =>
  pinOp env (Ev.csx true) s

/-- Embedding of `ST7789::hard_reset`: reset high, wait, low, wait,
high, wait. -/
def hard_reset (env : Env) (s : St) : St × Option Error :=
  step (pinOp env (Ev.rst true) s) fun s =>
  step (delayOp 10 s) fun s =>
  step (pinOp env (Ev.rst false) s) fun s =>
  step (delayOp 10 s) fun s =>
  step (pinOp env (Ev.rst true) s) fun s =>
  step (delayOp 10 s) fun s =>
  (s, none)

/-- Embedding of `ST7789::init`: hard reset, then the fixed eight-command
power-up sequence with its blocking waits. -/
def init (env : Env) (s : St) : St × Option Error :=
  step (hard_reset env s) fun s =>
  step (write_command env Instruction.SWRESET none s) fun s =>
  step (delayOp 150000 s) fun s =>
  step (write_command env Instruction.SLPOUT none s) fun s =>
  step (delayOp 10000 s) fun s =>
  step (write_command env Instruction.INVOFF none s) fun s =>
  step (write_command env Instruction.MADCTL (some [0x00]) s) fun s =>
  step (write_command env Instruction.COLMOD (some [0x55]) s) fun s =>
  step (write_command env Instruction.INVON none s) fun s =>
  step (delayOp 10000 s) fun s =>
  step (write_command env Instruction.NORON none s) fun s =>
  step (delayOp 10000 s) fun s =>
  step (write_command env Instruction.DISPON none s) fun s =>
  step (delayOp 10000 s) fun s =>
  (s, none)

/-- Embedding of `ST7789::set_orientation`: one memory-access-control
command carrying the orientation byte. -/
def set_orientation (env : Env) (o : Orientation) (s : St) : St × Option Error :=
  step (write_command env Instruction.MADCTL (some [o.toU8]) s) fun s =>
  (s, none)

/-- Embedding of `ST7789::set_address_window`: column-address-set with
the two big-endian column bounds, then row-address-set with the two
big-endian row bounds. -/
def set_address_window (env : Env) (sx sy ex ey : Nat) (s : St) : St × Option Error :=
  step (write_command env Instruction.CASET none s) fun s =>
  step (start_data env s) fun s =>
  step (write_word env sx s) fun s =>
  step (write_word env ex s) fun s =>
  step (write_command env Instruction.RASET none s) fun s =>
  step (start_data env s) fun s =>
  step (write_word env sy s) fun s =>
  write_word env ey s

/-- Embedding of `ST7789::set_pixel`. -/
def set_pixel (env : Env) (x y color : Nat) (s : St) : St × Option Error :=
  step (set_address_window env x y x y s) fun s =>
  step (write_command env Instruction.RAMWR none s) fun s =>
  step (start_data env s) fun s =>
  write_word env color s

/-- Embedding of the plain (non-`buffer`) `ST7789::write_pixels`: one
data word per color. -/
def write_pixels_direct (env : Env) : List Nat → St → St × Option Error
  | [], s => (s, none)
  | color :: colors, s =>
      step (write_word env color s) fun s =>
      write_pixels_direct env colors s

/-- The `for color in colors` loop of the `buffer` variant of
`ST7789::write_pixels`: `buf` is the 128-byte staging array and `i` the
fill index; each color's big-endian bytes go to positions `i` and
`i + 1`, and a full buffer is flushed with `write_data`, resetting `i`
to 0. -/
def bufLoop (env : Env) : List Nat → List Nat → Nat → St → (List Nat × Nat × St) × Option Error
  | [], buf, i, s => ((buf, i, s), none)
  | color :: colors, buf, i, s =>
      let buf2 := (buf.set i (beHi color)).set (i + 1) (beLo color)
      let i2 := i + 2
      if i2 = buf2.length then
        match write_data env buf2 s with
        | (s, none) => bufLoop env colors buf2 0 s
        | (s, some e) => ((buf2, 0, s), some e)
      else
        bufLoop env colors buf2 i2 s

/-- Embedding of the `buffer` variant of `ST7789::write_pixels`: the
loop above on a zeroed 128-byte buffer, then a final partial flush of
the `i` bytes still staged. -/
def write_pixels_buffer (env : Env) (colors : List Nat) (s : St) : St × Option Error :=
  match bufLoop env colors (List.replicate 128 0) 0 s with
  | ((buf, i, s), none) => if 0 < i then write_data env (buf.take i) s else (s, none)
  | ((_, _, s), some e) => (s, some e)

/-- Embedding of `ST7789::set_pixels` as compiled with the plain
`write_pixels`. -/
def set_pixels_direct (env : Env) (sx sy ex ey : Nat) (colors : List Nat)
    (s : St) : St × Option Error :=
  step (set_address_window env sx sy ex ey s) fun s =>
  step (write_command env Instruction.RAMWR none s) fun s =>
  step (start_data env s) fun s =>
  write_pixels_direct env colors s

/-- Embedding of `ST7789::set_pixels` as compiled with the buffered
`write_pixels`. -/
def set_pixels_buffer (env : Env) (sx sy ex ey : Nat) (colors : List Nat)
    (s : St) : St × Option Error :=
  step (set_address_window env sx sy ex ey s) fun s =>
  step (write_command env Instruction.RAMWR none s) fun s =>
  step (start_data env s) fun s =>
  write_pixels_buffer env colors s

/-- List write with an explicit bounds check: `none` models the
out-of-bounds panic of `buf[i] = x` in Rust, whereas `List.set` silently
ignores an out-of-bounds index. -/
def setChecked (l : List Nat) (i : Nat) (x : Nat) : Option (List Nat) :=
  if i < l.length then some (l.set i x) else none

/-- The buffered pixel loop with every staging-buffer write
bounds-checked: it returns `none` exactly when some buffer write would
be out of bounds. -/
def bufLoopChecked (env : Env) : List Nat → List Nat → Nat → St →
    Option ((List Nat × Nat × St) × Option Error)
  | [], buf, i, s => some ((buf, i, s), none)
  | color :: colors, buf, i, s =>
      match setChecked buf i (beHi color) with
      | none => none
      | some buf1 =>
        match setChecked buf1 (i + 1) (beLo color) with
        | none => none
        | some buf2 =>
          let i2 := i + 2
          if i2 = buf2.length then
            match write_data env buf2 s with
            | (s, none) => bufLoopChecked env colors buf2 0 s
            | (s, some e) => some ((buf2, 0, s), some e)
          else
            bufLoopChecked env colors buf2 i2 s

/-- The buffered `write_pixels` with bounds-checked buffer writes. -/
def write_pixels_buffer_checked (env : Env) (colors : List Nat) (s : St) :
    Option (St × Option Error) :=
  match bufLoopChecked env colors (List.replicate 128 0) 0 s with
  | none => none
  | some ((buf, i, s), none) =>
      some (if 0 < i then write_data env (buf.take i) s else (s, none))
  | some ((_, _, s), some e) => some (s, some e)

/-- The bytes an event sequence puts on the SPI bus, in order. -/
def spiBytes : List Ev → List Nat
  | [] => []
  | Ev.spi bs :: es => bs ++ spiBytes es
  | _ :: es => spiBytes es

/-- All bytes of the big-endian words of a color sequence, in order. -/
def wordBytes : List Nat → List Nat
  | [] => []
  | c :: cs => beBytes c ++ wordBytes cs

/-- The trace of a successful `write_data` call: select, transfer,
deselect. -/
def dataEvs (bytes : List Nat) : List Ev :=
  [Ev.csx false, Ev.spi bytes, Ev.csx true]

/-- The trace of a successful parameterless command: select, command
context, opcode byte, deselect. -/
def cmdEvs (c : Instruction) : List Ev :=
  [Ev.csx false, Ev.dc false, Ev.spi [c.toU8], Ev.csx true]

/-- The trace of a successful command carrying parameter bytes: select,
command context, opcode byte, data context, then the bracketed data
transfer of the parameters, then deselect. -/
def cmdParamEvs (c : Instruction) (ps : List Nat) : List Ev :=
  [Ev.csx false, Ev.dc false, Ev.spi [c.toU8], Ev.dc true] ++ dataEvs ps ++ [Ev.csx true]

/-- The trace of a successful `hard_reset`. -/
def hardResetEvs : List Ev :=
  [Ev.rst true, Ev.delay 10, Ev.rst false, Ev.delay 10, Ev.rst true, Ev.delay 10]

/-- The full trace of a successful `init`: the hard reset followed by
the eight commands of the power-up sequence with their blocking waits. -/
def initEvs : List Ev :=
  hardResetEvs ++
  cmdEvs Instruction.SWRESET ++ [Ev.delay 150000] ++
  cmdEvs Instruction.SLPOUT ++ [Ev.delay 10000] ++
  cmdEvs Instruction.INVOFF ++
  cmdParamEvs Instruction.MADCTL [0x00] ++
  cmdParamEvs Instruction.COLMOD [0x55] ++
  cmdEvs Instruction.INVON ++ [Ev.delay 10000] ++
  cmdEvs Instruction.NORON ++ [Ev.delay 10000] ++
  cmdEvs Instruction.DISPON ++ [Ev.delay 10000]

/-- The trace of each color of a pixel stream sent as one bracketed
big-endian data word. -/
def pixelEvs : List Nat → List Ev
  | [] => []
  | c :: cs => dataEvs (beBytes c) ++ pixelEvs cs

/-- The trace of a successful `set_address_window`. -/
def windowEvs (sx sy ex ey : Nat) : List Ev :=
  cmdEvs Instruction.CASET ++ [Ev.dc true] ++
  dataEvs (beBytes sx) ++ dataEvs (beBytes ex) ++
  cmdEvs Instruction.RASET ++ [Ev.dc true] ++
  dataEvs (beBytes sy) ++ dataEvs (beBytes ey)

theorem step_ok (s : St) (f : St → St × Option Error) : step (s, none) f = f s := rfl

theorem step_err (s : St) (e : Error) (f : St → St × Option Error) :
    step (s, some e) f = (s, some e) := rfl

theorem pinOp_allOk (e : Ev) (s : St) :
    pinOp allOk e s = (⟨s.n + 1, s.tr ++ [e], s.size_x, s.size_y⟩, none) := rfl

theorem spiOp_allOk (bs : List Nat) (s : St) :
    spiOp allOk bs s = (⟨s.n + 1, s.tr ++ [Ev.spi bs], s.size_x, s.size_y⟩, none) := rfl

/-- Specification of a driver operation under a failure oracle `env`:
from any state the operation preserves the stored screen dimensions and
never decreases the operation counter; on success it appends exactly the
trace `evs`; on failure the trace it has appended is a prefix of `evs`
(nothing beyond the failing operation runs) and the error wraps the
failing operation's oracle payload in the matching variant. -/
def RunsTo (env : Env) (f : St → St × Option Error) (evs : List Ev) : Prop :=
  ∀ s, (s.n ≤ (f s).1.n ∧ (f s).1.size_x = s.size_x ∧ (f s).1.size_y = s.size_y) ∧
    ((f s).2 = none → (f s).1.tr = s.tr ++ evs) ∧
    (∀ e, (f s).2 = some e → (∃ u, (f s).1.tr ++ u = s.tr ++ evs) ∧
      ∃ p m, (e = Error.spi p ∨ e = Error.pin p) ∧ s.n ≤ m ∧ env m = some p)

theorem runsTo_pinOp (env : Env) (e : Ev) : RunsTo env (pinOp env e) [e] := by
  intro s
  cases h : env s.n with
  | none => simp [pinOp, h]
  | some p =>
      refine ⟨by simp [pinOp, h], by simp [pinOp, h], ?_⟩
      intro e' he'
      simp [pinOp, h] at he'
      subst he'
      exact ⟨⟨[e], by simp [pinOp, h]⟩, p, s.n, Or.inr rfl, Nat.le_refl _, h⟩

theorem runsTo_spiOp (env : Env) (bs : List Nat) :
    RunsTo env (spiOp env bs) [Ev.spi bs] := by
  intro s
  cases h : env s.n with
  | none => simp [spiOp, h]
  | some p =>
      refine ⟨by simp [spiOp, h], by simp [spiOp, h], ?_⟩
      intro e' he'
      simp [spiOp, h] at he'
      subst he'
      exact ⟨⟨[Ev.spi bs], by simp [spiOp, h]⟩, p, s.n, Or.inl rfl, Nat.le_refl _, h⟩

theorem runsTo_delayOp (env : Env) (us : Nat) :
    RunsTo env (delayOp us) [Ev.delay us] := by
  intro s
  simp [delayOp]

theorem runsTo_pure (env : Env) : RunsTo env (fun s => (s, none)) [] := by
  intro s
  simp

theorem runsTo_step {env : Env} {f g : St → St × Option Error} {evs1 evs2 : List Ev}
    (hf : RunsTo env f evs1) (hg : RunsTo env g evs2) :
    RunsTo env (fun s => step (f s) g) (evs1 ++ evs2) := by
  intro s
  obtain ⟨⟨hfn, hfx, hfy⟩, hfok, hferr⟩ := hf s
  rcases h1 : f s with ⟨s1, r1⟩
  rw [h1] at hfn hfx hfy hfok hferr
  cases r1 with
  | none =>
      obtain ⟨⟨hgn, hgx, hgy⟩, hgok, hgerr⟩ := hg s1
      have hs1 : s1.tr = s.tr ++ evs1 := hfok rfl
      simp only [h1, step_ok]
      refine ⟨⟨Nat.le_trans hfn hgn, by rw [hgx]; exact hfx, by rw [hgy]; exact hfy⟩, ?_, ?_⟩
      · intro hok
        rw [hgok hok, hs1, List.append_assoc]
      · intro e he
        obtain ⟨⟨u, hu⟩, p, m, hpe, hm, hmp⟩ := hgerr e he
        refine ⟨⟨u, ?_⟩, p, m, hpe, Nat.le_trans hfn hm, hmp⟩
        rw [hu, hs1, List.append_assoc]
  | some e1 =>
      simp only [h1, step_err]
      obtain ⟨⟨u, hu⟩, p, m, hpe, hm, hmp⟩ := hferr e1 rfl
      refine ⟨⟨hfn, hfx, hfy⟩, by intro h; exact Option.noConfusion h, ?_⟩
      intro e he
      have he' : e1 = e := by simpa using he
      subst he'
      refine ⟨⟨u ++ evs2, ?_⟩, p, m, hpe, hm, hmp⟩
      rw [← List.append_assoc, hu, List.append_assoc]

theorem runsTo_write_data (env : Env) (d : List Nat) :
    RunsTo env (write_data env d) (dataEvs d) :=
  runsTo_step (runsTo_pinOp env (Ev.csx false))
    (runsTo_step (runsTo_spiOp env d) (runsTo_pinOp env (Ev.csx true)))

theorem runsTo_write_word (env : Env) (v : Nat) :
    RunsTo env (write_word env v) (dataEvs (beBytes v)) :=
  runsTo_write_data env (beBytes v)

theorem runsTo_start_data (env : Env) :
    RunsTo env (start_data env) [Ev.dc true] :=
  runsTo_step (runsTo_pinOp env (Ev.dc true)) (runsTo_pure env)

theorem runsTo_write_command_none (env : Env) (c : Instruction) :
    RunsTo env (write_command env c none) (cmdEvs c) :=
  runsTo_step (runsTo_pinOp env (Ev.csx false))
    (runsTo_step (runsTo_pinOp env (Ev.dc false))
      (runsTo_step (runsTo_spiOp env [c.toU8])
        (runsTo_step (runsTo_pure env) (runsTo_pinOp env (Ev.csx true)))))

theorem runsTo_evs_eq {env : Env} {f : St → St × Option Error} {evs1 evs2 : List Ev}
    (h : RunsTo env f evs1) (he : evs1 = evs2) : RunsTo env f evs2 := he ▸ h

theorem runsTo_write_command_some (env : Env) (c : Instruction) (ps : List Nat) :
    RunsTo env (write_command env c (some ps)) (cmdParamEvs c ps) :=
  runsTo_evs_eq (runsTo_step (runsTo_pinOp env (Ev.csx false))
    (runsTo_step (runsTo_pinOp env (Ev.dc false))
      (runsTo_step (runsTo_spiOp env [c.toU8])
        (runsTo_step (runsTo_step (runsTo_start_data env) (runsTo_write_data env ps))
          (runsTo_pinOp env (Ev.csx true)))))) rfl

theorem runsTo_hard_reset (env : Env) :
    RunsTo env (hard_reset env) hardResetEvs :=
  runsTo_step (runsTo_pinOp env (Ev.rst true))
    (runsTo_step (runsTo_delayOp env 10)
      (runsTo_step (runsTo_pinOp env (Ev.rst false))
        (runsTo_step (runsTo_delayOp env 10)
          (runsTo_step (runsTo_pinOp env (Ev.rst true))
            (runsTo_step (runsTo_delayOp env 10) (runsTo_pure env))))))

theorem runsTo_init (env : Env) : RunsTo env (init env) initEvs :=
  runsTo_evs_eq (runsTo_step (runsTo_hard_reset env)
    (runsTo_step (runsTo_write_command_none env Instruction.SWRESET)
      (runsTo_step (runsTo_delayOp env 150000)
        (runsTo_step (runsTo_write_command_none env Instruction.SLPOUT)
          (runsTo_step (runsTo_delayOp env 10000)
            (runsTo_step (runsTo_write_command_none env Instruction.INVOFF)
              (runsTo_step (runsTo_write_command_some env Instruction.MADCTL [0x00])
                (runsTo_step (runsTo_write_command_some env Instruction.COLMOD [0x55])
                  (runsTo_step (runsTo_write_command_none env Instruction.INVON)
                    (runsTo_step (runsTo_delayOp env 10000)
                      (runsTo_step (runsTo_write_command_none env Instruction.NORON)
                        (runsTo_step (runsTo_delayOp env 10000)
                          (runsTo_step (runsTo_write_command_none env Instruction.DISPON)
                            (runsTo_step (runsTo_delayOp env 10000)
                              (runsTo_pure env))))))))))))))) rfl

theorem runsTo_set_orientation (env : Env) (o : Orientation) :
    RunsTo env (set_orientation env o) (cmdParamEvs Instruction.MADCTL [o.toU8]) :=
  runsTo_evs_eq
    (runsTo_step (runsTo_write_command_some env Instruction.MADCTL [o.toU8]) (runsTo_pure env))
    rfl

theorem runsTo_set_address_window (env : Env) (sx sy ex ey : Nat) :
    RunsTo env (set_address_window env sx sy ex ey) (windowEvs sx sy ex ey) :=
  runsTo_evs_eq
    (runsTo_step (runsTo_write_command_none env Instruction.CASET)
      (runsTo_step (runsTo_start_data env)
        (runsTo_step (runsTo_write_word env sx)
          (runsTo_step (runsTo_write_word env ex)
            (runsTo_step (runsTo_write_command_none env Instruction.RASET)
              (runsTo_step (runsTo_start_data env)
                (runsTo_step (runsTo_write_word env sy) (runsTo_write_word env ey))))))))
    rfl

theorem runsTo_set_pixel (env : Env) (x y c : Nat) :
    RunsTo env (set_pixel env x y c)
      (windowEvs x y x y ++ cmdEvs Instruction.RAMWR ++ [Ev.dc true] ++ dataEvs (beBytes c)) :=
  runsTo_evs_eq
    (runsTo_step (runsTo_set_address_window env x y x y)
      (runsTo_step (runsTo_write_command_none env Instruction.RAMWR)
        (runsTo_step (runsTo_start_data env) (runsTo_write_word env c))))
    rfl

theorem runsTo_write_pixels_direct (env : Env) :
    ∀ colors : List Nat, RunsTo env (write_pixels_direct env colors) (pixelEvs colors)
  | [] => runsTo_pure env
  | c :: cs =>
      runsTo_step (runsTo_write_word env c) (runsTo_write_pixels_direct env cs)

theorem runsTo_set_pixels_direct (env : Env) (sx sy ex ey : Nat) (colors : List Nat) :
    RunsTo env (set_pixels_direct env sx sy ex ey colors)
      (windowEvs sx sy ex ey ++ cmdEvs Instruction.RAMWR ++ [Ev.dc true] ++ pixelEvs colors) :=
  runsTo_evs_eq
    (runsTo_step (runsTo_set_address_window env sx sy ex ey)
      (runsTo_step (runsTo_write_command_none env Instruction.RAMWR)
        (runsTo_step (runsTo_start_data env) (runsTo_write_pixels_direct env colors))))
    (by simp [List.append_assoc])

theorem write_data_allOk (d : List Nat) (s : St) :
    write_data allOk d s = (⟨s.n + 3, s.tr ++ dataEvs d, s.size_x, s.size_y⟩, none) := by
  simp [write_data, step_ok, pinOp_allOk, spiOp_allOk, dataEvs]

theorem write_word_allOk (v : Nat) (s : St) :
    write_word allOk v s =
      (⟨s.n + 3, s.tr ++ dataEvs (beBytes v), s.size_x, s.size_y⟩, none) :=
  write_data_allOk (beBytes v) s

theorem start_data_allOk (s : St) :
    start_data allOk s = (⟨s.n + 1, s.tr ++ [Ev.dc true], s.size_x, s.size_y⟩, none) := rfl

theorem write_command_none_allOk (c : Instruction) (s : St) :
    write_command allOk c none s =
      (⟨s.n + 4, s.tr ++ cmdEvs c, s.size_x, s.size_y⟩, none) := by
  simp [write_command, step_ok, pinOp_allOk, spiOp_allOk, cmdEvs]

theorem write_command_some_allOk (c : Instruction) (ps : List Nat) (s : St) :
    write_command allOk c (some ps) s =
      (⟨s.n + 8, s.tr ++ cmdParamEvs c ps, s.size_x, s.size_y⟩, none) := by
  simp [write_command, write_data, start_data, step_ok, pinOp_allOk, spiOp_allOk,
    cmdParamEvs, dataEvs]

theorem set_address_window_allOk (sx sy ex ey : Nat) (s : St) :
    set_address_window allOk sx sy ex ey s =
      (⟨s.n + 22, s.tr ++ windowEvs sx sy ex ey, s.size_x, s.size_y⟩, none) := by
  simp [set_address_window, write_command_none_allOk, start_data_allOk, write_word_allOk,
    step_ok, windowEvs]

theorem spiBytes_append : ∀ a b : List Ev, spiBytes (a ++ b) = spiBytes a ++ spiBytes b := by
  intro a b
  induction a with
  | nil => simp [spiBytes]
  | cons x xs ih => cases x <;> simp [spiBytes, ih]

theorem spiBytes_dataEvs (bs : List Nat) : spiBytes (dataEvs bs) = bs := by
  simp [spiBytes, dataEvs]

theorem spiBytes_pixelEvs : ∀ colors : List Nat, spiBytes (pixelEvs colors) = wordBytes colors := by
  intro colors
  induction colors with
  | nil => rfl
  | cons c cs ih => simp [pixelEvs, wordBytes, spiBytes_append, spiBytes_dataEvs, ih]

theorem wordBytes_length : ∀ colors : List Nat, (wordBytes colors).length = 2 * colors.length := by
  intro colors
  induction colors with
  | nil => rfl
  | cons c cs ih =>
      simp only [wordBytes, beBytes, List.length_append, List.length_cons, List.length_nil, ih]
      omega

theorem take_set_pair : ∀ (l : List Nat) (i a b : Nat), i + 2 ≤ l.length →
    ((l.set i a).set (i + 1) b).take (i + 2) = l.take i ++ [a, b] := by
  intro l
  induction l with
  | nil =>
      intro i a b h
      simp at h
  | cons x xs ih =>
      intro i a b h
      cases i with
      | zero =>
          cases xs with
          | nil => simp at h
          | cons y ys => rfl
      | succ j =>
          have h' : j + 2 ≤ xs.length := by
            simp only [List.length_cons] at h
            omega
          show x :: (((xs.set j a).set (j + 1) b).take (j + 2)) = x :: (xs.take j ++ [a, b])
          exact congrArg (List.cons x) (ih j a b h')

theorem set_pair_full (l : List Nat) (i a b : Nat) (h : i + 2 = l.length) :
    (l.set i a).set (i + 1) b = l.take i ++ [a, b] := by
  have h2 : ((l.set i a).set (i + 1) b).length = i + 2 := by
    simp [h]
  conv_lhs => rw [← List.take_length ((l.set i a).set (i + 1) b)]
  rw [h2]
  exact take_set_pair l i a b (Nat.le_of_eq h)

/-- Characterization of the buffered loop when every operation succeeds:
it never fails, it preserves the dimensions, it appends some trace `d`,
and the SPI bytes of `d` followed by the bytes still staged in the
buffer are exactly the previously staged bytes followed by the
big-endian words of all the colors. -/
theorem bufLoop_allOk : ∀ (colors buf : List Nat) (i : Nat) (s : St),
    buf.length = 128 → i + 2 ≤ 128 → i % 2 = 0 →
    ∃ buf' i' s' d,
      bufLoop allOk colors buf i s = ((buf', i', s'), none) ∧
      buf'.length = 128 ∧ i' + 2 ≤ 128 ∧ i' % 2 = 0 ∧
      s'.tr = s.tr ++ d ∧ s'.size_x = s.size_x ∧ s'.size_y = s.size_y ∧
      spiBytes d ++ buf'.take i' = buf.take i ++ wordBytes colors := by
  intro colors
  induction colors with
  | nil =>
      intro buf i s hlen hi hpar
      exact ⟨buf, i, s, [], rfl, hlen, hi, hpar, by simp, rfl, rfl, by simp [wordBytes, spiBytes]⟩
  | cons c cs ih =>
      intro buf i s hlen hi hpar
      have hlen2 : ((buf.set i (beHi c)).set (i + 1) (beLo c)).length = 128 := by
        simp [hlen]
      by_cases hfull : i + 2 = 128
      · have hb2 : (buf.set i (beHi c)).set (i + 1) (beLo c) = buf.take i ++ [beHi c, beLo c] :=
          set_pair_full buf i (beHi c) (beLo c) (by omega)
        obtain ⟨buf', i', s', d, heq, h1, h2, h3, h4, h5, h6, h7⟩ :=
          ih ((buf.set i (beHi c)).set (i + 1) (beLo c)) 0
            ⟨s.n + 3, s.tr ++ dataEvs ((buf.set i (beHi c)).set (i + 1) (beLo c)),
              s.size_x, s.size_y⟩
            hlen2 (by omega) (by omega)
        refine ⟨buf', i', s',
          dataEvs ((buf.set i (beHi c)).set (i + 1) (beLo c)) ++ d, ?_, h1, h2, h3, ?_, h5, h6, ?_⟩
        · simp only [bufLoop, hlen2, hfull, if_true, eq_self_iff_true, write_data_allOk]
          exact heq
        · rw [h4]
          simp [List.append_assoc]
        · rw [spiBytes_append, spiBytes_dataEvs, List.append_assoc, h7, hb2]
          simp [wordBytes, beBytes, List.append_assoc]
      · obtain ⟨buf', i', s', d, heq, h1, h2, h3, h4, h5, h6, h7⟩ :=
          ih ((buf.set i (beHi c)).set (i + 1) (beLo c)) (i + 2) s hlen2 (by omega) (by omega)
        refine ⟨buf', i', s', d, ?_, h1, h2, h3, h4, h5, h6, ?_⟩
        · have hfull2 : ¬ (i + 2 = ((buf.set i (beHi c)).set (i + 1) (beLo c)).length) := by
            rw [hlen2]; exact hfull
          simp only [bufLoop]
          rw [if_neg hfull2]
          exact heq
        · rw [h7, take_set_pair buf i (beHi c) (beLo c) (by rw [hlen]; omega)]
          simp [wordBytes, beBytes, List.append_assoc]

/-- The buffered `write_pixels` under the all-success oracle: it
succeeds, preserves the dimensions, and appends a trace whose SPI bytes
are exactly the big-endian words of the colors. -/
theorem write_pixels_buffer_allOk (colors : List Nat) (s : St) :
    ∃ d, (write_pixels_buffer allOk colors s).1.tr = s.tr ++ d ∧
      (write_pixels_buffer allOk colors s).2 = none ∧
      spiBytes d = wordBytes colors ∧
      (write_pixels_buffer allOk colors s).1.size_x = s.size_x ∧
      (write_pixels_buffer allOk colors s).1.size_y = s.size_y := by
  obtain ⟨buf', i', s', d, heq, h1, h2, h3, h4, h5, h6, h7⟩ :=
    bufLoop_allOk colors (List.replicate 128 0) 0 s (by simp) (by omega) (by omega)
  have h7' : spiBytes d ++ buf'.take i' = wordBytes colors := by simpa using h7
  by_cases hpos : 0 < i'
  · have hres : write_pixels_buffer allOk colors s = write_data allOk (buf'.take i') s' := by
      unfold write_pixels_buffer
      rw [heq]
      simp [hpos]
    refine ⟨d ++ dataEvs (buf'.take i'), ?_, ?_, ?_, ?_, ?_⟩ <;>
      simp [hres, write_data_allOk, h4, h5, h6, spiBytes_append, spiBytes_dataEvs, h7',
        List.append_assoc]
  · have hz : i' = 0 := by omega
    have hres : write_pixels_buffer allOk colors s = (s', none) := by
      unfold write_pixels_buffer
      rw [heq]
      simp [hpos]
    refine ⟨d, ?_, ?_, ?_, ?_, ?_⟩
    · simp [hres, h4]
    · simp [hres]
    · rw [← h7', hz]
      simp
    · simp [hres, h5]
    · simp [hres, h6]

theorem write_pixels_direct_allOk : ∀ (colors : List Nat) (s : St),
    ∃ m, write_pixels_direct allOk colors s =
      (⟨m, s.tr ++ pixelEvs colors, s.size_x, s.size_y⟩, none) := by
  intro colors
  induction colors with
  | nil =>
      intro s
      exact ⟨s.n, by simp [write_pixels_direct, pixelEvs]⟩
  | cons c cs ih =>
      intro s
      obtain ⟨m, hm⟩ := ih ⟨s.n + 3, s.tr ++ dataEvs (beBytes c), s.size_x, s.size_y⟩
      refine ⟨m, ?_⟩
      simp only [write_pixels_direct]
      rw [write_word_allOk]
      simp only [step_ok]
      rw [hm]
      simp [pixelEvs, List.append_assoc]

/-- C7: if a pin or transport operation fails during `init`, `init`
returns that operation's error immediately: the trace it leaves is a
prefix of the full initialization trace `initEvs` (no event of any
later step appears), and the returned error wraps exactly the failing
operation's oracle payload.  There is no retry and no partial-success
outcome. -/
theorem C7_init_error_halts (env : Env) (s s' : St) (e : Error)
    (h : init env s = (s', some e)) :
    (∃ u, s'.tr ++ u = s.tr ++ initEvs) ∧
    ∃ p m, (e = Error.spi p ∨ e = Error.pin p) ∧ s.n ≤ m ∧ env m = some p := by
  obtain ⟨_, _, herr⟩ := runsTo_init env s
  rw [h] at herr
  exact herr e rfl

/-- Witness for C7: under an oracle failing at operation index 5 (the
software-reset opcode write, the first SPI write of step 1), `init`
stops inside step 1 with the SPI error payload 7. -/
theorem C7_init_error_halts_witness :
    (∃ u, (⟨6, [Ev.rst true, Ev.delay 10, Ev.rst false, Ev.delay 10, Ev.rst true,
        Ev.delay 10, Ev.csx false, Ev.dc false], 240, 320⟩ : St).tr ++ u =
      (new 240 320).tr ++ initEvs) ∧
    ∃ p m, (Error.spi 7 = Error.spi p ∨ Error.spi 7 = Error.pin p) ∧
      (new 240 320).n ≤ m ∧ (fun n => if n = 5 then some 7 else none : Env) m = some p :=
  C7_init_error_halts (fun n => if n = 5 then some 7 else none) (new 240 320)
    ⟨6, [Ev.rst true, Ev.delay 10, Ev.rst false, Ev.delay 10, Ev.rst true,
      Ev.delay 10, Ev.csx false, Ev.dc false], 240, 320⟩ (Error.spi 7) rfl

/-- C1: `init` first performs the hard reset and then issues exactly the
eight commands software-reset, sleep-out, invert-off, memory-access-control
(parameter byte `0x00`), color-mode (parameter byte `0x55`), invert-on,
normal-display-mode-on, display-on, in that order with those parameter
bytes and no other event interleaved, with blocking waits of 150ms after
software-reset and 10ms after each of sleep-out, invert-on,
normal-display-mode-on and display-on (the trace records exactly these
minimum waits, as `initEvs` spells out). -/
theorem C1_init_sequence (s : St) :
    (init allOk s).1.tr = s.tr ++ initEvs ∧ (init allOk s).2 = none := by
  simp [init, hard_reset, write_command, write_data, start_data, step_ok, pinOp_allOk,
    spiOp_allOk, delayOp, initEvs, hardResetEvs, cmdEvs, cmdParamEvs, dataEvs]

/-- C5: for each of the four orientations, `set_orientation` issues
exactly one memory-access-control command with exactly one parameter
byte equal to the orientation's fixed constant (Portrait `0x00`,
Landscape `0x60`, PortraitSwapped `0xC0`, LandscapeSwapped `0xA0`), and
the trace shows no other command. -/
theorem C5_orientation (o : Orientation) (s : St) :
    ((set_orientation allOk o s).1.tr = s.tr ++ cmdParamEvs Instruction.MADCTL [o.toU8] ∧
      (set_orientation allOk o s).2 = none) ∧
    Orientation.toU8 Orientation.Portrait = 0x00 ∧
    Orientation.toU8 Orientation.Landscape = 0x60 ∧
    Orientation.toU8 Orientation.PortraitSwapped = 0xC0 ∧
    Orientation.toU8 Orientation.LandscapeSwapped = 0xA0 := by
  refine ⟨⟨?_, ?_⟩, rfl, rfl, rfl, rfl⟩ <;>
    simp [set_orientation, write_command, write_data, start_data, step_ok, pinOp_allOk,
      spiOp_allOk, cmdParamEvs, dataEvs]

/-- C8: every command transmission follows the framing discipline:
select the device (chip-select low), set command context (data/command
low), send the one opcode byte, optionally switch to data context and
send the parameter bytes, then deselect; and every raw data-only write
independently brackets its SPI transfer with select/deselect without an
opcode.  The context switch is per discrete command: each call's trace
contains its own complete bracket. -/
theorem C8_command_framing (c : Instruction) (ps bytes : List Nat) (s : St) :
    ((write_command allOk c none s).1.tr = s.tr ++ cmdEvs c ∧
      (write_command allOk c none s).2 = none) ∧
    ((write_command allOk c (some ps) s).1.tr = s.tr ++ cmdParamEvs c ps ∧
      (write_command allOk c (some ps) s).2 = none) ∧
    ((write_data allOk bytes s).1.tr = s.tr ++ dataEvs bytes ∧
      (write_data allOk bytes s).2 = none) := by
  refine ⟨⟨?_, ?_⟩, ⟨?_, ?_⟩, ?_, ?_⟩ <;>
    simp [write_command, write_data, start_data, step_ok, pinOp_allOk, spiOp_allOk,
      cmdEvs, cmdParamEvs, dataEvs]

/-- Under the all-success oracle an operation satisfying `RunsTo` cannot
fail (a failure would exhibit an index where `allOk` returns a payload),
so it returns exactly its success trace. -/
theorem runsTo_allOk_ok {f : St → St × Option Error} {evs : List Ev}
    (h : RunsTo allOk f evs) (s : St) :
    (f s).2 = none ∧ (f s).1.tr = s.tr ++ evs := by
  obtain ⟨_, hok, herr⟩ := h s
  cases hr : (f s).2 with
  | none => exact ⟨rfl, hok hr⟩
  | some e =>
      obtain ⟨_, p, m, _, _, hmp⟩ := herr e hr
      exact absurd hmp (by simp [allOk])

theorem write_pixels_direct_allOk_tr (colors : List Nat) (t : St) :
    (write_pixels_direct allOk colors t).1.tr = t.tr ++ pixelEvs colors := by
  obtain ⟨m, hm⟩ := write_pixels_direct_allOk colors t
  rw [hm]

/-- C2: `set_pixels` first issues column-address-set whose data bytes
are the big-endian bytes of `sx` then `ex`, then row-address-set with
the big-endian bytes of `sy` then `ey`, then the memory-write command
with no attached parameter bytes, all before any pixel data — in both
`write_pixels` variants.  The trailing conjuncts spell out what the
big-endian encoding is. -/
theorem C2_address_window (sx sy ex ey : Nat) (colors : List Nat) (s : St) :
    ((set_pixels_direct allOk sx sy ex ey colors s).1.tr =
      s.tr ++ windowEvs sx sy ex ey ++ cmdEvs Instruction.RAMWR ++ [Ev.dc true] ++
        pixelEvs colors) ∧
    (∃ rest, (set_pixels_buffer allOk sx sy ex ey colors s).1.tr =
      s.tr ++ windowEvs sx sy ex ey ++ cmdEvs Instruction.RAMWR ++ [Ev.dc true] ++ rest) ∧
    beBytes sx = [sx / 256 % 256, sx % 256] ∧ beBytes sy = [sy / 256 % 256, sy % 256] ∧
    beBytes ex = [ex / 256 % 256, ex % 256] ∧ beBytes ey = [ey / 256 % 256, ey % 256] := by
  refine ⟨?_, ?_, rfl, rfl, rfl, rfl⟩
  · rw [(runsTo_allOk_ok (runsTo_set_pixels_direct allOk sx sy ex ey colors) s).2]
    simp [List.append_assoc]
  · have key : ∀ t : St,
        t.tr = s.tr ++ windowEvs sx sy ex ey ++ cmdEvs Instruction.RAMWR ++ [Ev.dc true] →
        ∃ rest, (write_pixels_buffer allOk colors t).1.tr =
          s.tr ++ windowEvs sx sy ex ey ++ cmdEvs Instruction.RAMWR ++ [Ev.dc true] ++ rest := by
      intro t ht
      obtain ⟨d, hd, _, _, _⟩ := write_pixels_buffer_allOk colors t
      exact ⟨d, by rw [hd, ht]⟩
    simp only [set_pixels_buffer, set_address_window_allOk, step_ok, write_command_none_allOk,
      start_data_allOk]
    exact key _ (by simp [List.append_assoc])

/-- C3: streaming `N` colors emits, after the memory-write command,
exactly `N` big-endian 16-bit data words — `2 * N` bytes, each word most
significant byte first — and the SPI byte stream is identical for the
unbuffered and the 128-byte-staging-buffer `write_pixels` variants
(both equal `wordBytes colors`). -/
theorem C3_stream_equiv (colors : List Nat) (s : St) :
    ((write_pixels_direct allOk colors s).1.tr = s.tr ++ pixelEvs colors ∧
      (write_pixels_direct allOk colors s).2 = none ∧
      spiBytes (pixelEvs colors) = wordBytes colors) ∧
    (∃ d, (write_pixels_buffer allOk colors s).1.tr = s.tr ++ d ∧
      (write_pixels_buffer allOk colors s).2 = none ∧
      spiBytes d = wordBytes colors) ∧
    (wordBytes colors).length = 2 * colors.length := by
  obtain ⟨m, hm⟩ := write_pixels_direct_allOk colors s
  obtain ⟨d, hd1, hd2, hd3, _, _⟩ := write_pixels_buffer_allOk colors s
  exact ⟨⟨by rw [hm], by rw [hm], spiBytes_pixelEvs colors⟩, ⟨d, hd1, hd2, hd3⟩,
    wordBytes_length colors⟩

theorem step_congr {x : St × Option Error} {f g : St → St × Option Error}
    (h : ∀ t, f t = g t) : step x f = step x g := by
  rcases x with ⟨t, r⟩
  cases r with
  | none => exact h t
  | some e => rfl

theorem write_pixels_direct_single (env : Env) (c : Nat) (t : St) :
    write_pixels_direct env [c] t = write_word env c t := by
  show step (write_word env c t) (write_pixels_direct env []) = write_word env c t
  rcases h : write_word env c t with ⟨u, r⟩
  cases r with
  | none => rfl
  | some e => rfl

theorem write_pixels_buffer_single (env : Env) (c : Nat) (t : St) :
    write_pixels_buffer env [c] t = write_word env c t := by
  have hcond : ¬ (0 + 2 = (((List.replicate 128 0).set 0 (beHi c)).set (0 + 1) (beLo c)).length) := by
    rw [List.length_set, List.length_set, List.length_replicate]
    omega
  have h1 : bufLoop env [c] (List.replicate 128 0) 0 t =
      ((((List.replicate 128 0).set 0 (beHi c)).set (0 + 1) (beLo c), 0 + 2, t), none) := by
    simp only [bufLoop]
    rw [if_neg hcond]
  unfold write_pixels_buffer
  rw [h1]
  show (if 0 < 0 + 2 then
      write_data env ((((List.replicate 128 0).set 0 (beHi c)).set (0 + 1) (beLo c)).take (0 + 2)) t
    else (t, none)) = write_word env c t
  rw [if_pos (by omega), take_set_pair (List.replicate 128 0) 0 (beHi c) (beLo c) (by simp)]
  rfl

/-- C4: `set_pixel x y c` produces exactly the same result — the same
state, trace and outcome under every failure oracle — as
`set_pixels x y x y [c]`, whichever `write_pixels` variant `set_pixels`
is compiled with. -/
theorem C4_set_pixel_refines (env : Env) (x y c : Nat) (s : St) :
    set_pixel env x y c s = set_pixels_direct env x y x y [c] s ∧
    set_pixel env x y c s = set_pixels_buffer env x y x y [c] s := by
  constructor
  · unfold set_pixel set_pixels_direct
    refine step_congr fun t1 => ?_
    refine step_congr fun t2 => ?_
    refine step_congr fun t3 => ?_
    exact (write_pixels_direct_single env c t3).symm
  · unfold set_pixel set_pixels_buffer
    refine step_congr fun t1 => ?_
    refine step_congr fun t2 => ?_
    refine step_congr fun t3 => ?_
    exact (write_pixels_buffer_single env c t3).symm

theorem bufLoopChecked_eq (env : Env) : ∀ (colors buf : List Nat) (i : Nat) (s : St),
    buf.length = 128 → i + 2 ≤ 128 → i % 2 = 0 →
    bufLoopChecked env colors buf i s = some (bufLoop env colors buf i s) := by
  intro colors
  induction colors with
  | nil => intro buf i s _ _ _; rfl
  | cons c cs ih =>
      intro buf i s hlen hi hpar
      have hi1 : i < buf.length := by rw [hlen]; omega
      have hi2 : i + 1 < (buf.set i (beHi c)).length := by rw [List.length_set, hlen]; omega
      have hlen2 : ((buf.set i (beHi c)).set (i + 1) (beLo c)).length = 128 := by
        rw [List.length_set, List.length_set, hlen]
      simp only [bufLoopChecked, bufLoop, setChecked, if_pos hi1, if_pos hi2]
      by_cases hfull : i + 2 = 128
      · have hc : i + 2 = ((buf.set i (beHi c)).set (i + 1) (beLo c)).length := by
          rw [hlen2]; exact hfull
        rw [if_pos hc, if_pos hc]
        rcases hw : write_data env ((buf.set i (beHi c)).set (i + 1) (beLo c)) s with ⟨s1, r⟩
        cases r with
        | none => exact ih _ 0 s1 hlen2 (by omega) (by omega)
        | some e => rfl
      · have hc : ¬ (i + 2 = ((buf.set i (beHi c)).set (i + 1) (beLo c)).length) := by
          rw [hlen2]; exact hfull
        rw [if_neg hc, if_neg hc]
        exact ih _ (i + 2) s hlen2 (by omega) (by omega)

/-- C10: in the buffered `write_pixels`, every write into the 128-byte
staging buffer is in bounds: running the loop with every buffer write
bounds-checked (`none` modelling the out-of-bounds panic) always
succeeds and returns exactly the unchecked run, under every oracle and
every color sequence.  The loop flushes and resets the index exactly
when it reaches the buffer length, and the final partial flush sends the
`i` staged bytes, as `write_pixels_buffer` itself spells out. -/
theorem C10_buffer_writes_in_bounds (env : Env) (colors : List Nat) (s : St) :
    write_pixels_buffer_checked env colors s = some (write_pixels_buffer env colors s) := by
  unfold write_pixels_buffer_checked write_pixels_buffer
  rw [bufLoopChecked_eq env colors (List.replicate 128 0) 0 s (by simp) (by omega) (by omega)]
  rcases h : bufLoop env colors (List.replicate 128 0) 0 s with ⟨⟨buf, i, s1⟩, r⟩
  cases r with
  | none => rfl
  | some e => rfl

theorem sizes_step {a b : Nat} {x : St × Option Error} {g : St → St × Option Error}
    (hx : x.1.size_x = a ∧ x.1.size_y = b)
    (hg : ∀ t, (g t).1.size_x = t.size_x ∧ (g t).1.size_y = t.size_y) :
    (step x g).1.size_x = a ∧ (step x g).1.size_y = b := by
  rcases x with ⟨t, r⟩
  cases r with
  | none => exact ⟨(hg t).1.trans hx.1, (hg t).2.trans hx.2⟩
  | some e => exact hx

/-- A driver operation that never changes the stored screen dimensions. -/
def PreservesSizes (f : St → St × Option Error) : Prop :=
  ∀ t, (f t).1.size_x = t.size_x ∧ (f t).1.size_y = t.size_y

theorem preservesSizes_of_runsTo {env : Env} {f : St → St × Option Error} {evs : List Ev}
    (h : RunsTo env f evs) : PreservesSizes f :=
  fun t => ⟨(h t).1.2.1, (h t).1.2.2⟩

theorem bufLoop_sizes (env : Env) : ∀ (colors buf : List Nat) (i : Nat) (s : St),
    ((bufLoop env colors buf i s).1.2.2).size_x = s.size_x ∧
    ((bufLoop env colors buf i s).1.2.2).size_y = s.size_y := by
  intro colors
  induction colors with
  | nil => intro buf i s; exact ⟨rfl, rfl⟩
  | cons c cs ih =>
      intro buf i s
      simp only [bufLoop]
      split
      · rcases hw : write_data env ((buf.set i (beHi c)).set (i + 1) (beLo c)) s with ⟨s1, r⟩
        have hws := preservesSizes_of_runsTo
          (runsTo_write_data env ((buf.set i (beHi c)).set (i + 1) (beLo c))) s
        rw [hw] at hws
        cases r with
        | none => exact ⟨(ih _ 0 s1).1.trans hws.1, (ih _ 0 s1).2.trans hws.2⟩
        | some e => exact hws
      · exact ih _ (i + 2) s

theorem write_pixels_buffer_sizes (env : Env) (colors : List Nat) :
    PreservesSizes (write_pixels_buffer env colors) := by
  intro s
  have hb := bufLoop_sizes env colors (List.replicate 128 0) 0 s
  unfold write_pixels_buffer
  rcases h : bufLoop env colors (List.replicate 128 0) 0 s with ⟨⟨buf, i, s1⟩, r⟩
  rw [h] at hb
  cases r with
  | none =>
      show (if 0 < i then write_data env (List.take i buf) s1 else (s1, none)).1.size_x = s.size_x ∧
        (if 0 < i then write_data env (List.take i buf) s1 else (s1, none)).1.size_y = s.size_y
      by_cases hpos : 0 < i
      · rw [if_pos hpos]
        have hw := preservesSizes_of_runsTo (runsTo_write_data env (buf.take i)) s1
        exact ⟨hw.1.trans hb.1, hw.2.trans hb.2⟩
      · rw [if_neg hpos]
        exact hb
  | some e => exact hb

theorem set_pixels_buffer_sizes (env : Env) (sx sy ex ey : Nat) (colors : List Nat) :
    PreservesSizes (set_pixels_buffer env sx sy ex ey colors) := fun s =>
  sizes_step (preservesSizes_of_runsTo (runsTo_set_address_window env sx sy ex ey) s)
    fun t1 => sizes_step
      (preservesSizes_of_runsTo (runsTo_write_command_none env Instruction.RAMWR) t1)
      fun t2 => sizes_step (preservesSizes_of_runsTo (runsTo_start_data env) t2)
        fun t3 => write_pixels_buffer_sizes env colors t3

/-- C9: `new` stores the given dimensions, starts with an empty trace
and zero consumed operations (it performs no I/O), and no subsequent
operation — `init`, `hard_reset`, `set_orientation`, `set_pixel` or
`set_pixels` in either variant — ever modifies the stored dimensions,
under any failure oracle. -/
theorem C9_new_stores_dims (sx sy : Nat) (env : Env) (o : Orientation)
    (x y c wx wy ux uy : Nat) (colors : List Nat) (s : St) :
    ((new sx sy).tr = [] ∧ (new sx sy).n = 0 ∧
      (new sx sy).size_x = sx ∧ (new sx sy).size_y = sy) ∧
    ((init env s).1.size_x = s.size_x ∧ (init env s).1.size_y = s.size_y) ∧
    ((hard_reset env s).1.size_x = s.size_x ∧ (hard_reset env s).1.size_y = s.size_y) ∧
    ((set_orientation env o s).1.size_x = s.size_x ∧
      (set_orientation env o s).1.size_y = s.size_y) ∧
    ((set_pixel env x y c s).1.size_x = s.size_x ∧
      (set_pixel env x y c s).1.size_y = s.size_y) ∧
    ((set_pixels_direct env wx wy ux uy colors s).1.size_x = s.size_x ∧
      (set_pixels_direct env wx wy ux uy colors s).1.size_y = s.size_y) ∧
    ((set_pixels_buffer env wx wy ux uy colors s).1.size_x = s.size_x ∧
      (set_pixels_buffer env wx wy ux uy colors s).1.size_y = s.size_y) :=
  ⟨⟨rfl, rfl, rfl, rfl⟩,
    preservesSizes_of_runsTo (runsTo_init env) s,
    preservesSizes_of_runsTo (runsTo_hard_reset env) s,
    preservesSizes_of_runsTo (runsTo_set_orientation env o) s,
    preservesSizes_of_runsTo (runsTo_set_pixel env x y c) s,
    preservesSizes_of_runsTo (runsTo_set_pixels_direct env wx wy ux uy colors) s,
    set_pixels_buffer_sizes env wx wy ux uy colors s⟩

/-- C6: `hard_reset` drives the reset line high, waits 10µs, drives it
low, waits 10µs, drives it high, waits 10µs — three pin transitions with
three separate waits; and if a reset-line operation fails, it returns
`Error.pin` with that operation's payload and performs no further pin
transitions (the trace stops right before the failing transition). -/
theorem C6_hard_reset (s : St) :
    ((hard_reset allOk s).1.tr = s.tr ++ hardResetEvs ∧ (hard_reset allOk s).2 = none) ∧
    (∀ env p, env s.n = some p →
      (hard_reset env s).2 = some (Error.pin p) ∧ (hard_reset env s).1.tr = s.tr) ∧
    (∀ env p, env s.n = none → env (s.n + 1) = some p →
      (hard_reset env s).2 = some (Error.pin p) ∧
        (hard_reset env s).1.tr = s.tr ++ [Ev.rst true, Ev.delay 10]) ∧
    (∀ env p, env s.n = none → env (s.n + 1) = none → env (s.n + 2) = some p →
      (hard_reset env s).2 = some (Error.pin p) ∧
        (hard_reset env s).1.tr = s.tr ++ [Ev.rst true, Ev.delay 10, Ev.rst false, Ev.delay 10]) := by
  refine ⟨⟨?_, ?_⟩, ?_, ?_, ?_⟩
  · simp [hard_reset, step_ok, pinOp_allOk, delayOp, hardResetEvs]
  · simp [hard_reset, step_ok, pinOp_allOk, delayOp]
  · intro env p h1
    simp [hard_reset, pinOp, delayOp, step, h1]
  · intro env p h1 h2
    simp [hard_reset, pinOp, delayOp, step, h1, h2]
  · intro env p h1 h2 h3
    simp [hard_reset, pinOp, delayOp, step, h1, h2, h3]

/-- Witness for C6: from the all-success oracle the full reset trace,
and from an oracle failing at the third reset operation the pin error
with the trace stopping after the second transition. -/
theorem C6_hard_reset_witness :
    (hard_reset allOk (new 1 2)).1.tr = hardResetEvs ∧
    (hard_reset (fun n => if n = 2 then some 9 else none) (new 1 2)).2 = some (Error.pin 9) ∧
    (hard_reset (fun n => if n = 2 then some 9 else none) (new 1 2)).1.tr =
      [Ev.rst true, Ev.delay 10, Ev.rst false, Ev.delay 10] :=
  ⟨(C6_hard_reset (new 1 2)).1.1,
    ((C6_hard_reset (new 1 2)).2.2.2 (fun n => if n = 2 then some 9 else none) 9 rfl rfl rfl).1,
    ((C6_hard_reset (new 1 2)).2.2.2 (fun n => if n = 2 then some 9 else none) 9 rfl rfl rfl).2⟩

end ST7735
